import Mathlib

/-!
Verification of the resume-screening heuristics of the Agents repository.

The Python sources are shallowly embedded:
* resume text is a `List Char` (`Text`); Python's `str.lower` is `List.map Char.toLower`
  (the source data is ASCII, and the regex/keyword vocabulary is pure ASCII);
* Python `s in text` substring tests are `hasSub`;
* the `re` patterns used by the code (word-boundary skill search, the
  "<N> years experience" patterns, the 4-digit year scans) are hand-compiled
  to deterministic matchers; each matcher's doc comment names its pattern.
  For these patterns greedy matching never needs to backtrack (justified in
  the doc comments), so the deterministic matchers are exact;
* Python float arithmetic in the scorers is modelled with `ℚ`, and Python's
  `round` (banker's rounding) with `pyRound`.  For every value the scorers
  round, the exact result is never an exact half-integer (proved below), and
  the float computations are exact at all integer and half-integer outcomes,
  so the rational model rounds identically to the Python floats.
-/

namespace Screening

abbrev Text := List Char

/-- Lowercasing of a text, modelling Python `str.lower` on ASCII data. -/
def lowerText (t : Text) : Text := t.map Char.toLower

/-- Python regex `\s` on ASCII: space, tab, newline, carriage return,
vertical tab, form feed. -/
def isWsChar (c : Char) : Bool :=
  c == ' ' || c == '\t' || c == '\n' || c == '\r' || c == '\x0b' || c == '\x0c'

/-- ASCII decimal digit, Python regex `\d` (ASCII input). -/
def isDigitChar (c : Char) : Bool :=
  c == '0' || c == '1' || c == '2' || c == '3' || c == '4' ||
  c == '5' || c == '6' || c == '7' || c == '8' || c == '9'

/-- Python regex word character `\w` on ASCII: letters, digits, underscore. -/
def isWordChar (c : Char) : Bool :=
  c.isAlpha || isDigitChar c || c == '_'

/-- Python substring containment `pat in t`. -/
def containsSub (pat : Text) : Text → Bool
  | [] => pat.isEmpty
  | c :: rest => pat.isPrefixOf (c :: rest) || containsSub pat rest

/-- Python `s in text` for a string literal `s`. -/
def hasSub (s : String) (t : Text) : Bool := containsSub s.toList t

/-- The text starting right after a candidate match satisfies the closing
word boundary `\b` (end of text or a non-word character). -/
def boundaryOk : Text → Bool
  | [] => true
  | c :: _ => !isWordChar c

/-- A match of the literal `pat` at the head of `t`, with the closing `\b`.
All patterns used start and end with word characters, so `\b` at the edges
reduces to checks on the neighbouring characters. -/
def wbAt (pat : Text) (t : Text) : Bool :=
  pat.isPrefixOf t && boundaryOk (t.drop pat.length)

/-- Scan for `\b pat \b`; `prevIsWord` tells whether the character before
the current position is a word character (opening boundary). -/
def wbSearchAux (pat : Text) (prevIsWord : Bool) : Text → Bool
  | [] => false
  | c :: rest => (!prevIsWord && wbAt pat (c :: rest)) || wbSearchAux pat (isWordChar c) rest

/-- Python `re.search(r'\b' + re.escape(s) + r'\b', t) is not None` for a
literal `s` whose first and last characters are word characters. -/
def wbSearch (s : String) (t : Text) : Bool := wbSearchAux s.toList false t

/-- Maximal run of leading whitespace removed: regex `\s*` by maximal munch
(exact whenever the following pattern piece cannot start with whitespace). -/
def skipWs : Text → Text
  | [] => []
  | c :: rest => if isWsChar c then skipWs rest else c :: rest

/-- Regex `\s+`: at least one whitespace character, then maximal munch. -/
def skipWsOne : Text → Option Text
  | [] => none
  | c :: rest => if isWsChar c then some (skipWs rest) else none

/-- Maximal run of leading digits (regex `\d+` by maximal munch; exact here
because the pattern piece after `\d+` never starts with a digit). -/
def takeDigits : Text → Text × Text
  | [] => ([], [])
  | c :: rest =>
    if isDigitChar c then
      let p := takeDigits rest
      (c :: p.1, p.2)
    else ([], c :: rest)

/-- Numeric value of a digit string, as Python `int` of the capture. -/
def digitsToNat (ds : Text) : ℕ := ds.foldl (fun n c => 10 * n + (c.toNat - 48)) 0

/-- Consume the literal `s` at the head of `t`, or fail. -/
def dropLit (s : String) (t : Text) : Option Text :=
  if s.toList.isPrefixOf t then some (t.drop s.toList.length) else none

end Screening

namespace RealisticResumeScreener

open Screening

/-- Skill weights of `RealisticResumeScreener.__init__`, in source order. -/
def skill_weights : List (String × ℕ) :=
  [("python", 8), ("java", 8), ("javascript", 6), ("aws", 10), ("docker", 8),
   ("kubernetes", 10), ("sql", 6), ("react", 5), ("node.js", 5), ("tensorflow", 8),
   ("pytorch", 8), ("machine learning", 12), ("ai", 12), ("cloud", 8),
   ("devops", 10), ("azure", 6), ("gcp", 6), ("linux", 5), ("git", 4),
   ("spring", 6), ("django", 5), ("flask", 4), ("fastapi", 4), ("mongodb", 4),
   ("postgresql", 4), ("mysql", 4), ("redis", 3), ("kafka", 4), ("spark", 5)]

/-- Position-specific requirements of `RealisticResumeScreener.__init__`. -/
def position_requirements : List (String × List String) :=
  [("software_engineer", ["python", "java", "javascript", "aws", "docker", "sql"]),
   ("data_scientist", ["python", "machine learning", "tensorflow", "pytorch", "sql"]),
   ("devops", ["aws", "docker", "kubernetes", "linux", "git", "cloud"]),
   ("full_stack", ["python", "javascript", "react", "node.js", "aws", "docker"])]

/-- Python `self.position_requirements.get(target_position, [])`. -/
def requiredSkillsFor (pos : String) : List String :=
  (position_requirements.lookup pos).getD []

/-- One step of the pattern `(\d+)\s*years?\s*(?:of)?\s*experience` after the
digits: `\s*`, literal `year`, optional `s`, `\s*`, optional `of`, `\s*`,
literal `experience`.  Deterministic greedy matching is exact: whitespace can
never begin `year`, `of` or `experience`; if `of` is consumed, a following
failure cannot be repaired by not consuming it (the text would then have to
continue with `experience`, but it starts with `o`); likewise for the
optional `s` (the text would then have to continue with `\s`, `o` or `e`). -/
def matchAfterDigits (t : Text) : Option Text :=
  match dropLit "year" (skipWs t) with
  | none => none
  | some r1 =>
    let r2 := match r1 with
      | 's' :: rest => rest
      | _ => r1
    let r3 := skipWs r2
    match dropLit "of" r3 with
    | some r4 => dropLit "experience" (skipWs r4)
    | none => dropLit "experience" r3

/-- Match of `(\d+)\s*years?\s*(?:of)?\s*experience` anchored at the head of
`t`, returning the captured group value and the rest of the text. -/
def matchYearsExpAt (t : Text) : Option (ℕ × Text) :=
  let p := takeDigits t
  if p.1.isEmpty then none
  else
    match matchAfterDigits p.2 with
    | some r => some (digitsToNat p.1, r)
    | none => none

/-- Python `re.findall(r'(\d+)\s*years?\s*(?:of)?\s*experience', text_lower)`
as the list of captured values: scan left to right, resume after each match.
The fuel starts at the text length and every step consumes at least one
character, so it never runs out. -/
def findAllYearsAux : ℕ → Text → List ℕ
  | 0, _ => []
  | _, [] => []
  | fuel + 1, c :: rest =>
    match matchYearsExpAt (c :: rest) with
    | some (n, r) => n :: findAllYearsAux fuel r
    | none => findAllYearsAux fuel rest

def findAllYears (t : Text) : List ℕ := findAllYearsAux t.length t

/-- Second half of the date-range pattern: `(?:19|20)\d{2}`. -/
def matchSecondYear : Text → Bool
  | a :: b :: c :: d :: _ =>
    ((a == '1' && b == '9') || (a == '2' && b == '0')) && isDigitChar c && isDigitChar d
  | _ => false

/-- Match of `(?:19|20)\d{2}[-\s]\s*(?:19|20)\d{2}` anchored at the head. -/
def matchDateAt : Text → Bool
  | a :: b :: c :: d :: e :: rest =>
    ((a == '1' && b == '9') || (a == '2' && b == '0')) && isDigitChar c && isDigitChar d
      && (e == '-' || isWsChar e) && matchSecondYear (skipWs rest)
  | _ => false

/-- Python `re.findall(r'(?:19|20)\d{2}[-\s]\s*(?:19|20)\d{2}', text) != []`:
only non-emptiness of the match list is consumed by the scorer. -/
def datePatternFound : Text → Bool
  | [] => false
  | c :: rest => matchDateAt (c :: rest) || datePatternFound rest

/-- Tier bonus on the summed years, lines 81-88 of realistic_screener.py. -/
def yearsTier (y : ℕ) : ℕ :=
  if y ≥ 10 then 15 else if y ≥ 5 then 12 else if y ≥ 3 then 8 else if y ≥ 1 then 5 else 0

/-- Experience-section score before the seniority bonus and the cap: the
`"experience" in text_lower` branch of `grade_resume`.  The date estimate
uses the raw (non-lowercased) text, exactly as in the source. -/
def expSectionScore (t : Text) : ℕ :=
  let tl := lowerText t
  if hasSub "experience" tl then
    10 + (match findAllYears tl with
          | [] => if datePatternFound t then 7 else 0
          | ys => yearsTier ((ys.take 3).sum))
  else 0

/-- Seniority bonus: `re.search(r'\b(senior|lead|principal|manager|director)\b', ...)`. -/
def seniorBonus (tl : Text) : ℕ :=
  if (["senior", "lead", "principal", "manager", "director"]).any (fun w => wbSearch w tl)
  then 8 else 0

/-- Education score with the university bonus, before the cap at 15. -/
def educationScoreRaw (tl : Text) : ℕ :=
  (if hasSub "phd" tl || hasSub "doctorate" tl then 15
   else if hasSub "master" tl || hasSub "ms" tl || hasSub "m.sc" tl then 10
   else if hasSub "bachelor" tl || hasSub "bs" tl || hasSub "b.tech" tl then 7
   else if hasSub "education" tl then 5
   else 0)
  + 3 * ((["stanford", "mit", "harvard", "caltech", "princeton",
           "cambridge", "oxford", "carnegie", "berkeley"]).countP (fun u => hasSub u tl))

/-- Skills detected in the lowered text, in skill-dictionary order. -/
def skillsFound (tl : Text) : List String :=
  (skill_weights.filter (fun sw => wbSearch sw.1 tl)).map (fun sw => sw.1)

/-- Weighted skill sum with the +2 bonus for required skills. -/
def skillsRawScore (tl : Text) (pos : String) : ℕ :=
  ((skill_weights.filter (fun sw => wbSearch sw.1 tl)).map
    (fun sw => sw.2 + (if sw.1 ∈ requiredSkillsFor pos then 2 else 0))).sum

/-- Python `sum(sorted(self.skill_weights.values(), reverse=True)[:10])`:
descending stable sort of the weights, first ten, summed. -/
def maxPossibleSkills : ℕ :=
  (((skill_weights.map (fun sw => sw.2)).insertionSort (fun a b => b ≤ a)).take 10).sum

/-- The skill component added to the score: the weighted sum normalised by
`maxPossibleSkills` and scaled by 30 (lines 138-142 of the source). -/
def skillsComponent (tl : Text) (pos : String) : ℚ :=
  if 0 < maxPossibleSkills then
    (skillsRawScore tl pos : ℚ) / (maxPossibleSkills : ℚ) * 30
  else 0

/-- Company-reputation score before the cap at 10. -/
def companyScoreRaw (tl : Text) : ℕ :=
  3 * ((["google", "microsoft", "amazon", "facebook", "apple",
         "netflix", "meta", "tesla", "spacex", "uber", "airbnb"]).countP
        (fun c => hasSub c tl))

/-- Certification bonus. -/
def certScore (tl : Text) : ℕ :=
  if hasSub "certification" tl || hasSub "certified" tl then 3 else 0

/-- Achievement-keyword count. -/
def achievementCount (tl : Text) : ℕ :=
  (["achievement", "award", "published", "patent",
    "improved", "increased", "reduced", "optimized"]).countP (fun k => hasSub k tl)

/-- Position-specific adjustment (lines 164-174 of the source). -/
def positionBonus (tl : Text) (pos : String) : ℕ :=
  if pos = "data_scientist" then
    if 2 ≤ ((skillsFound tl).filter
        (fun s => s ∈ (["machine learning", "ai", "tensorflow", "pytorch"] : List String))).length
    then 5 else 0
  else if pos = "devops" then
    if 3 ≤ ((skillsFound tl).filter
        (fun s => s ∈ (["aws", "docker", "kubernetes", "cloud"] : List String))).length
    then 5 else 0
  else 0

/-- The pre-clamp score of `grade_resume` for non-empty text. -/
def rawScore (t : Text) (pos : String) : ℚ :=
  40 + min (expSectionScore t + seniorBonus (lowerText t)) 25
     + min (educationScoreRaw (lowerText t)) 15
     + skillsComponent (lowerText t) pos
     + min (companyScoreRaw (lowerText t)) 10
     + certScore (lowerText t)
     + min (achievementCount (lowerText t) * 2) 10
     + positionBonus (lowerText t) pos

end RealisticResumeScreener

namespace Screening

/-- Python `round` on a value that is exactly represented: floor for a
fractional part below one half, ceiling above one half, and banker's rounding
(towards the even integer) at exactly one half. -/
def pyRound (q : ℚ) : ℤ :=
  if Int.fract q < 1 / 2 then ⌊q⌋
  else if 1 / 2 < Int.fract q then ⌊q⌋ + 1
  else if ⌊q⌋ % 2 = 0 then ⌊q⌋ else ⌊q⌋ + 1

end Screening

namespace RealisticResumeScreener

open Screening

/-- `RealisticResumeScreener.grade_resume`: the final grade and the detected
skills.  Empty text short-circuits to `(0, [])` (line 64-65); otherwise the
score is clamped to `[30, 95]` and rounded. -/
def grade_resume (t : Text) (pos : String) : ℤ × List String :=
  if t.isEmpty then (0, [])
  else (pyRound (min 95 (max 30 (rawScore t pos))), skillsFound (lowerText t))

/-- `RealisticResumeScreener.calculate_position_match`. -/
def calculate_position_match (skills : List String) (pos : String) : ℤ :=
  let req := requiredSkillsFor pos
  if req.isEmpty then 0
  else
    let matched := skills.filter (fun s => s ∈ req)
    min 100 (pyRound ((matched.length : ℚ) / (req.length : ℚ) * 100))

/-- Match of `(\d+)\s+years?\s+experience` (the `process_folder` variant:
mandatory whitespace, no optional `of`) anchored at the head of `t`.
Greedy matching of `\d+`, the optional `s` and `\s+` is exact here for the
same reasons as in `matchAfterDigits`. -/
def matchYearsStrictAt (t : Text) : Option ℕ :=
  let p := takeDigits t
  if p.1.isEmpty then none
  else
    match skipWsOne p.2 with
    | none => none
    | some r1 =>
      match dropLit "year" r1 with
      | none => none
      | some r2 =>
        let r3 := match r2 with
          | 's' :: rest => rest
          | _ => r2
        match skipWsOne r3 with
        | none => none
        | some r4 =>
          match dropLit "experience" r4 with
          | some _ => some (digitsToNat p.1)
          | none => none

/-- Python `re.search(r'(\d+)\s+years?\s+experience', text.lower())`:
the captured value of the leftmost match, if any. -/
def searchYearsStrict : Text → Option ℕ
  | [] => none
  | c :: rest =>
    match matchYearsStrictAt (c :: rest) with
    | some n => some n
    | none => searchYearsStrict rest

/-- Match of `(?:19|20)\d{2}` anchored at the head, returning the year value
and the rest of the text. -/
def match4At : Text → Option (ℕ × Text)
  | a :: b :: c :: d :: rest =>
    if ((a == '1' && b == '9') || (a == '2' && b == '0')) && isDigitChar c && isDigitChar d
    then some (digitsToNat [a, b, c, d], rest)
    else none
  | _ => none

/-- Python `re.findall(r'(?:19|20)\d{2}', text)`: left-to-right scan with
resumption after each match; fuel as in `findAllYearsAux`. -/
def findYears4Aux : ℕ → Text → List ℕ
  | 0, _ => []
  | _, [] => []
  | fuel + 1, c :: rest =>
    match match4At (c :: rest) with
    | some (n, r) => n :: findYears4Aux fuel r
    | none => findYears4Aux fuel rest

def findYears4 (t : Text) : List ℕ := findYears4Aux t.length t

/-- Python `max` over a non-empty list (`0` on `[]`, unreachable there). -/
def listMax : List ℕ → ℕ
  | [] => 0
  | x :: xs => xs.foldl max x

/-- Python `min` over a non-empty list (`0` on `[]`, unreachable there). -/
def listMin : List ℕ → ℕ
  | [] => 0
  | x :: xs => xs.foldl min x

/-- The years-of-experience estimate of `process_folder` (lines 203-220):
the explicit "<N> years experience" capture when present, otherwise the
`(max - min) / 10` spread of the 4-digit years in `[1900, 2024]` (needing at
least two 4-digit matches and a non-empty filtered list), truncated at 20. -/
def years_experience (t : Text) : ℚ :=
  match searchYearsStrict (lowerText t) with
  | some n => (n : ℚ)
  | none =>
    let years := findYears4 t
    if 2 ≤ years.length then
      let yn := years.filter (fun y => decide (1900 ≤ y) && decide (y ≤ 2024))
      if yn.isEmpty then 0
      else
        let e : ℚ := ((listMax yn : ℚ) - (listMin yn : ℚ)) / 10
        if 20 < e then 20 else e
    else 0

end RealisticResumeScreener

namespace DecisionMakerAgent

/-- A graded record as consumed by `DecisionMakerAgent.select_top_candidates`:
`payload` stands for all fields other than `r["grading_result"]["grade"]`, and
`grade = none` models a record whose grade is missing or `None`. -/
structure GradedResume where
  payload : ℕ
  grade : Option ℤ
deriving DecidableEq

/-- The sort key `x["grading_result"]["grade"]` (only ever read on records
whose grade is present). -/
def gradeKey (r : GradedResume) : ℤ := r.grade.getD 0

/-- Python `sorted(valid, key=grade, reverse=True)`: a stable descending
sort, here as insertion sort with the relation "comes no later", which
places each record before the strictly-lower-graded ones and after the
earlier records of equal grade — exactly CPython's stable `sorted`. -/
def sortDescByGrade (l : List GradedResume) : List GradedResume :=
  l.insertionSort (fun a b => gradeKey b ≤ gradeKey a)

/-- `DecisionMakerAgent.select_top_candidates`: filter records with a
present grade, sort descending by grade (stable), take the first `n`. -/
def select_top_candidates (l : List GradedResume) (n : ℕ) : List GradedResume :=
  (sortDescByGrade (l.filter (fun r => r.grade.isSome))).take n

instance : IsTotal GradedResume (fun a b => gradeKey b ≤ gradeKey a) :=
  ⟨fun a b => le_total (gradeKey b) (gradeKey a)⟩

instance : IsTrans GradedResume (fun a b => gradeKey b ≤ gradeKey a) :=
  ⟨fun _ _ _ h1 h2 => le_trans h2 h1⟩

end DecisionMakerAgent

namespace HRGraderAgent

/-- The JSON object produced by `json.loads` on the model response in
`HRGraderAgent._parse_response`, with `none` for an absent key (the source
reads every key through `dict.get` with a default). -/
structure ParsedGrade where
  grade : Option ℤ
  summary : Option String
  relevance_score : Option ℤ
  skills_score : Option ℤ
  experience_score : Option ℤ
  formatting_score : Option ℤ

/-- The hard-coded fallback dict of `_parse_response` (lines 166-174). -/
def parseFallback : ParsedGrade :=
  { grade := some 0
    summary := some "Error parsing agent response"
    relevance_score := some 0
    skills_score := some 0
    experience_score := some 0
    formatting_score := some 0 }

/-- `HRGraderAgent._parse_response`.  The call to `json.loads` (after the
markdown-fence stripping) is external fallible code, modelled by its outcome
`decoded`; `none` is a parse failure (the `except` branch of the source). -/
def parse_response (decoded : Option ParsedGrade) : ParsedGrade :=
  match decoded with
  | some d => d
  | none => parseFallback

/-- Python `len(text.split())`: the number of maximal non-whitespace runs.
`prevWs` says whether the previous character was whitespace (or the start). -/
def countWordsAux (prevWs : Bool) : Screening.Text → ℕ
  | [] => 0
  | c :: rest =>
    (if !Screening.isWsChar c && prevWs then 1 else 0) + countWordsAux (Screening.isWsChar c) rest

def countWords (t : Screening.Text) : ℕ := countWordsAux true t

/-- The result record built by `HRGraderAgent.grade_and_summarize`. -/
structure GradeResult where
  grade : ℤ
  summary : String
  relevance : ℤ
  skills : ℤ
  experience : ℤ
  formatting : ℤ
  full_response : String
  word_count : ℕ

/-- `HRGraderAgent.grade_and_summarize`, with the model call and JSON parse
abstracted as in `parse_response`: `response` is the raw model output and
`decoded` the outcome of `json.loads` on its fence-stripped form. -/
def grade_and_summarize (resume_text : Screening.Text) (response : String)
    (decoded : Option ParsedGrade) : GradeResult :=
  let p := parse_response decoded
  { grade := p.grade.getD 0
    summary := p.summary.getD ""
    relevance := p.relevance_score.getD 0
    skills := p.skills_score.getD 0
    experience := p.experience_score.getD 0
    formatting := p.formatting_score.getD 0
    full_response := response
    word_count := countWords resume_text }

end HRGraderAgent

namespace ResumeScreener

open Screening

/-- `ResumeScreener.grade_resume` of run_me.py: the simple 50-base-point
variant (plain substring tests, no word boundaries, capped at 100). -/
def grade_resume (t : Text) : ℕ :=
  if t.isEmpty then 0
  else
    let tl := lowerText t
    min 100
      (50 + (if hasSub "experience" tl then 20 else 0)
          + (if hasSub "year" tl then 10 else 0)
          + (if hasSub "education" tl then 10 else 0)
          + (if hasSub "degree" tl || hasSub "bachelor" tl || hasSub "master" tl then 10 else 0)
          + 5 * ((["python", "java", "javascript", "sql", "aws", "docker"]).countP
                  (fun sk => hasSub sk tl)))

end ResumeScreener

namespace Screening

theorem bool_eq_of_iff {a b : Bool} (h : a = true ↔ b = true) : a = b := by
  cases a <;> cases b <;> simp_all

theorem pyRound_eq_round (q : ℚ) (h : Int.fract q ≠ 1 / 2) : pyRound q = round q := by
  have hf0 : 0 ≤ Int.fract q := Int.fract_nonneg q
  have hf1 : Int.fract q < 1 := Int.fract_lt_one q
  have hq : (⌊q⌋ : ℚ) + Int.fract q = q := Int.floor_add_fract q
  rw [pyRound, round_eq]
  by_cases hlt : Int.fract q < 1 / 2
  · rw [if_pos hlt]
    symm
    rw [Int.floor_eq_iff]
    constructor
    · linarith
    · linarith
  · have hgt : 1 / 2 < Int.fract q := lt_of_le_of_ne (not_lt.mp hlt) (Ne.symm h)
    rw [if_neg hlt, if_pos hgt]
    symm
    rw [Int.floor_eq_iff]
    constructor
    · push_cast
      linarith
    · push_cast
      linarith

theorem round_le_round_q {x y : ℚ} (h : x ≤ y) : round x ≤ round y := by
  rw [round_eq, round_eq]
  exact Int.floor_mono (by linarith)

theorem pyRound_nonneg {q : ℚ} (h : 0 ≤ q) : 0 ≤ pyRound q := by
  have h0 : (0 : ℤ) ≤ ⌊q⌋ := Int.floor_nonneg.mpr h
  rw [pyRound]
  split
  · exact h0
  · split
    · omega
    · split <;> omega

/-- The exact value rounded by the realistic scorer is never an exact
half-integer: scaled by the denominator 94, the numerator `94 A + 30 s` is
even while a half-integer would force it to be the odd `94 k + 47`. -/
theorem fract_ne_half_score (A s : ℕ) :
    Int.fract ((A : ℚ) + (s : ℚ) / 94 * 30) ≠ 1 / 2 := by
  intro h
  rw [Int.fract] at h
  set k := ⌊(A : ℚ) + (s : ℚ) / 94 * 30⌋ with hk
  have h3 : ((94 * A + 30 * s : ℤ) : ℚ) = ((94 * k + 47 : ℤ) : ℚ) := by
    push_cast
    linarith
  have h4 : (94 * (A : ℤ) + 30 * (s : ℤ)) = 94 * k + 47 := by exact_mod_cast h3
  omega

theorem fract_ne_half_clamped (A s : ℕ) :
    Int.fract (min 95 (max 30 ((A : ℚ) + (s : ℚ) / 94 * 30))) ≠ 1 / 2 := by
  set q : ℚ := (A : ℚ) + (s : ℚ) / 94 * 30 with hq
  rcases le_total q 30 with h30 | h30
  · rw [max_eq_left h30, min_eq_right (by norm_num : (30 : ℚ) ≤ 95)]
    rw [show (30 : ℚ) = ((30 : ℤ) : ℚ) by norm_num, Int.fract_intCast]
    norm_num
  · rw [max_eq_right h30]
    rcases le_total q 95 with h95 | h95
    · rw [min_eq_right h95]
      exact fract_ne_half_score A s
    · rw [min_eq_left h95]
      rw [show (95 : ℚ) = ((95 : ℤ) : ℚ) by norm_num, Int.fract_intCast]
      norm_num

end Screening

namespace RealisticResumeScreener

open Screening

theorem maxPossibleSkills_eq : maxPossibleSkills = 94 := by decide

theorem skillsComponent_eq (tl : Text) (pos : String) :
    skillsComponent tl pos = (skillsRawScore tl pos : ℚ) / 94 * 30 := by
  rw [skillsComponent, maxPossibleSkills_eq, if_pos (by norm_num : 0 < 94)]
  norm_num

/-- The integer part of the pre-clamp score: everything except the skill
component. -/
def intScore (t : Text) (pos : String) : ℕ :=
  40 + min (expSectionScore t + seniorBonus (lowerText t)) 25
     + min (educationScoreRaw (lowerText t)) 15
     + min (companyScoreRaw (lowerText t)) 10
     + certScore (lowerText t)
     + min (achievementCount (lowerText t) * 2) 10
     + positionBonus (lowerText t) pos

theorem rawScore_eq (t : Text) (pos : String) :
    rawScore t pos =
      (intScore t pos : ℚ) + (skillsRawScore (lowerText t) pos : ℚ) / 94 * 30 := by
  rw [rawScore, skillsComponent_eq, intScore]
  push_cast
  ring

theorem intScore_ge (t : Text) (pos : String) : 40 ≤ intScore t pos := by
  rw [intScore]
  omega

theorem rawScore_ge (t : Text) (pos : String) : 40 ≤ rawScore t pos := by
  rw [rawScore_eq]
  have h1 : (40 : ℚ) ≤ (intScore t pos : ℚ) := by
    exact_mod_cast intScore_ge t pos
  have h2 : (0 : ℚ) ≤ (skillsRawScore (lowerText t) pos : ℚ) / 94 * 30 := by
    positivity
  linarith

theorem grade_resume_nonempty (t : Text) (pos : String) (h : t ≠ []) :
    grade_resume t pos =
      (pyRound (min 95 (max 30 (rawScore t pos))), skillsFound (lowerText t)) := by
  rw [grade_resume, if_neg (by simpa [List.isEmpty_iff] using h)]

/-- C1, counterexample.  The claim asserts the grade never falls below 30
for any input text; on the empty text the scorer returns 0. -/
theorem c1_empty_text_below_min :
    (grade_resume ([] : Text) "software_engineer").1 < 30 := by decide

/-- C1, amended to non-empty input: for every non-empty text and every
position, the grade returned by `RealisticResumeScreener.grade_resume` lies
within the configured bounds `[30, 95]`. -/
theorem c1_grade_within_bounds (t : Text) (pos : String) (h : t ≠ []) :
    30 ≤ (grade_resume t pos).1 ∧ (grade_resume t pos).1 ≤ 95 := by
  rw [grade_resume_nonempty t pos h]
  have hraw := rawScore_ge t pos
  have hdec := rawScore_eq t pos
  have hnh : Int.fract (min 95 (max 30 (rawScore t pos))) ≠ 1 / 2 := by
    rw [hdec]
    exact fract_ne_half_clamped _ _
  have hround : pyRound (min 95 (max 30 (rawScore t pos))) =
      round (min 95 (max 30 (rawScore t pos))) := pyRound_eq_round _ hnh
  have hmax : max 30 (rawScore t pos) = rawScore t pos :=
    max_eq_right (by linarith)
  have h30 : (30 : ℚ) ≤ min 95 (max 30 (rawScore t pos)) := by
    rw [hmax]
    rcases le_total (rawScore t pos) 95 with h95 | h95
    · rw [min_eq_right h95]
      linarith
    · rw [min_eq_left h95]
      norm_num
  have h95 : min 95 (max 30 (rawScore t pos)) ≤ 95 := min_le_left _ _
  constructor
  · have := round_le_round_q h30
    rw [show ((30 : ℚ)) = ((30 : ℤ) : ℚ) by norm_num, round_intCast] at this
    simpa [hround] using this
  · have := round_le_round_q h95
    rw [show ((95 : ℚ)) = ((95 : ℤ) : ℚ) by norm_num, round_intCast] at this
    simpa [hround] using this

theorem c1_grade_within_bounds_witness :
    30 ≤ (grade_resume ("python".toList) "software_engineer").1 ∧
      (grade_resume ("python".toList) "software_engineer").1 ≤ 95 :=
  c1_grade_within_bounds ("python".toList) "software_engineer" (by decide)

/-- C2: on empty (falsy) input text the scorer returns grade 0 and an empty
skill list, for every target position, and — being a total function — it
raises no exception. -/
theorem c2_empty_text_grade_zero (pos : String) :
    grade_resume ([] : Text) pos = (0, []) := rfl

theorem requiredSkillsFor_eq (pos : String) :
    requiredSkillsFor pos =
      if pos = "software_engineer" then ["python", "java", "javascript", "aws", "docker", "sql"]
      else if pos = "data_scientist" then
        ["python", "machine learning", "tensorflow", "pytorch", "sql"]
      else if pos = "devops" then ["aws", "docker", "kubernetes", "linux", "git", "cloud"]
      else if pos = "full_stack" then ["python", "javascript", "react", "node.js", "aws", "docker"]
      else [] := by
  rw [requiredSkillsFor, position_requirements]
  by_cases h1 : pos = "software_engineer"
  · simp [List.lookup, h1]
  · by_cases h2 : pos = "data_scientist"
    · simp [List.lookup, h1, h2]
    · by_cases h3 : pos = "devops"
      · simp [List.lookup, h1, h2, h3]
      · by_cases h4 : pos = "full_stack"
        · simp [List.lookup, h1, h2, h3, h4]
        · simp [List.lookup, h1, h2, h3, h4, beq_eq_false_iff_ne.mpr h1,
            beq_eq_false_iff_ne.mpr h2, beq_eq_false_iff_ne.mpr h3, beq_eq_false_iff_ne.mpr h4]

theorem skillsRawScore_le_200 (tl : Text) (pos : String) : skillsRawScore tl pos ≤ 200 := by
  rw [skillsRawScore]
  have h1 : ((skill_weights.filter (fun sw => wbSearch sw.1 tl)).map
        (fun sw => sw.2 + (if sw.1 ∈ requiredSkillsFor pos then 2 else 0))).sum ≤
      (skill_weights.map
        (fun sw => sw.2 + (if sw.1 ∈ requiredSkillsFor pos then 2 else 0))).sum := by
    refine List.Sublist.sum_le_sum ?_ ?_
    · exact List.Sublist.map _ (List.filter_sublist _)
    · intro a _
      exact Nat.zero_le a
  refine le_trans h1 ?_
  simp only [requiredSkillsFor_eq]
  by_cases h1 : pos = "software_engineer"
  · simp only [if_pos h1]
    decide
  · rw [if_neg h1]
    by_cases h2 : pos = "data_scientist"
    · simp only [if_pos h2]
      decide
    · rw [if_neg h2]
      by_cases h3 : pos = "devops"
      · simp only [if_pos h3]
        decide
      · rw [if_neg h3]
        by_cases h4 : pos = "full_stack"
        · simp only [if_pos h4]
          decide
        · rw [if_neg h4]
          decide

/-- C4, counterexample.  The skill component is claimed to contribute at
most 30 points; a resume hitting the ten heaviest skills (four of them
required, earning the +2 bonus each) reaches a weighted sum of 102 against
the denominator 94, i.e. a contribution of 1530/47 > 30. -/
theorem c4_skills_component_exceeds_cap :
    30 < skillsComponent
      (lowerText ("machine learning ai aws kubernetes devops python java docker tensorflow pytorch".toList))
      "software_engineer" := by
  with_unfolding_all decide

/-- C4, amended: the skill component is the weighted sum (at most 188 + 12
bonus points) over the fixed denominator 94, scaled by 30, hence bounded by
200/94·30 = 3000/47 ≈ 63.8 — not by 30. -/
theorem c4_skills_component_bound (tl : Text) (pos : String) :
    skillsComponent tl pos ≤ 3000 / 47 := by
  rw [skillsComponent_eq]
  have h : (skillsRawScore tl pos : ℚ) ≤ 200 := by
    exact_mod_cast skillsRawScore_le_200 tl pos
  linarith

theorem fract_ne_half_div6 (m : ℕ) : Int.fract ((m : ℚ) / 6 * 100) ≠ 1 / 2 := by
  intro h
  rw [Int.fract] at h
  set k := ⌊(m : ℚ) / 6 * 100⌋ with hk
  have h3 : ((100 * m : ℤ) : ℚ) = ((6 * k + 3 : ℤ) : ℚ) := by
    push_cast
    linarith
  have h4 : (100 * (m : ℤ)) = 6 * k + 3 := by exact_mod_cast h3
  omega

theorem fract_div5 (m : ℕ) : Int.fract ((m : ℚ) / 5 * 100) = 0 := by
  rw [show (m : ℚ) / 5 * 100 = ((20 * m : ℕ) : ℚ) by push_cast; ring]
  exact Int.fract_natCast _

/-- C3: the position match equals the required-skill hit ratio times 100,
rounded to the nearest integer and clamped to `[0, 100]`; an unknown
position identifier yields 0; the result always lies in `[0, 100]`. -/
theorem c3_position_match_spec (skills : List String) (pos : String) :
    (0 ≤ calculate_position_match skills pos ∧ calculate_position_match skills pos ≤ 100) ∧
    (requiredSkillsFor pos = [] → calculate_position_match skills pos = 0) ∧
    (requiredSkillsFor pos ≠ [] →
      calculate_position_match skills pos =
        max 0 (min 100 (round
          (((skills.filter (fun s => s ∈ requiredSkillsFor pos)).length : ℚ)
            / ((requiredSkillsFor pos).length : ℚ) * 100)))) := by
  have hcpm : calculate_position_match skills pos =
      if (requiredSkillsFor pos).isEmpty then 0
      else min 100 (pyRound
        (((skills.filter (fun s => s ∈ requiredSkillsFor pos)).length : ℚ)
          / ((requiredSkillsFor pos).length : ℚ) * 100)) := rfl
  by_cases hreq : (requiredSkillsFor pos).isEmpty
  · rw [hcpm, if_pos hreq]
    refine ⟨⟨le_refl 0, by norm_num⟩, fun _ => rfl, fun hne => ?_⟩
    exact absurd (List.isEmpty_iff.mp hreq) hne
  · rw [hcpm, if_neg hreq]
    set m : ℕ := (skills.filter (fun s => s ∈ requiredSkillsFor pos)).length with hm
    set q : ℚ := (m : ℚ) / ((requiredSkillsFor pos).length : ℚ) * 100 with hq
    have hq0 : 0 ≤ q := by
      rw [hq]
      positivity
    have hpr0 : 0 ≤ pyRound q := pyRound_nonneg hq0
    have hfr : Int.fract q ≠ 1 / 2 := by
      by_cases h1 : pos = "software_engineer"
      · have hl : (requiredSkillsFor pos).length = 6 := by
          rw [requiredSkillsFor_eq, if_pos h1]
          rfl
        rw [hq, hl]
        push_cast
        exact fract_ne_half_div6 m
      · by_cases h2 : pos = "data_scientist"
        · have hl : (requiredSkillsFor pos).length = 5 := by
            rw [requiredSkillsFor_eq, if_neg h1, if_pos h2]
            rfl
          rw [hq, hl]
          push_cast
          rw [fract_div5 m]
          norm_num
        · by_cases h3 : pos = "devops"
          · have hl : (requiredSkillsFor pos).length = 6 := by
              rw [requiredSkillsFor_eq, if_neg h1, if_neg h2, if_pos h3]
              rfl
            rw [hq, hl]
            push_cast
            exact fract_ne_half_div6 m
          · by_cases h4 : pos = "full_stack"
            · have hl : (requiredSkillsFor pos).length = 6 := by
                rw [requiredSkillsFor_eq, if_neg h1, if_neg h2, if_neg h3, if_pos h4]
                rfl
              rw [hq, hl]
              push_cast
              exact fract_ne_half_div6 m
            · have hl : requiredSkillsFor pos = [] := by
                rw [requiredSkillsFor_eq, if_neg h1, if_neg h2, if_neg h3, if_neg h4]
              exact absurd (show (requiredSkillsFor pos).isEmpty = true by rw [hl]; rfl) hreq
    have hpr : pyRound q = round q := pyRound_eq_round q hfr
    refine ⟨⟨le_min (by norm_num) hpr0, min_le_left _ _⟩,
      fun h0 => absurd (show (requiredSkillsFor pos).isEmpty = true by rw [h0]; rfl) hreq,
      fun _ => ?_⟩
    rw [hpr]
    rw [max_eq_right (le_min (by norm_num) (hpr ▸ hpr0))]

theorem c3_position_match_witness :
    (0 ≤ calculate_position_match ["python", "sql"] "software_engineer" ∧
      calculate_position_match ["python", "sql"] "software_engineer" ≤ 100) ∧
    calculate_position_match ["python", "sql"] "software_engineer" =
      max 0 (min 100 (round
        (((["python", "sql"].filter
            (fun s => s ∈ requiredSkillsFor "software_engineer")).length : ℚ)
          / ((requiredSkillsFor "software_engineer").length : ℚ) * 100))) := by
  have h := c3_position_match_spec ["python", "sql"] "software_engineer"
  exact ⟨h.1, h.2.2 (by decide)⟩

theorem sum_map_filter_eq {α : Type} (l : List α) (p : α → Bool) (f : α → ℕ) :
    ((l.filter p).map f).sum = (l.map (fun x => if p x then f x else 0)).sum := by
  induction l with
  | nil => rfl
  | cons x xs ih =>
    by_cases h : p x <;> simp [List.filter_cons, h, ih]

theorem wbSearch_mono_of_subset {tl₁ tl₂ : Text}
    (hsub : ∀ s ∈ skillsFound tl₂, s ∈ skillsFound tl₁)
    {sw : String × ℕ} (hmem : sw ∈ skill_weights) (hw : wbSearch sw.1 tl₂ = true) :
    wbSearch sw.1 tl₁ = true := by
  have h2 : sw.1 ∈ skillsFound tl₂ := by
    rw [skillsFound]
    exact List.mem_map.mpr ⟨sw, List.mem_filter.mpr ⟨hmem, hw⟩, rfl⟩
  have h1 : sw.1 ∈ skillsFound tl₁ := hsub _ h2
  rw [skillsFound] at h1
  obtain ⟨sw', hsw', he⟩ := List.mem_map.mp h1
  have hw' := (List.mem_filter.mp hsw').2
  exact he ▸ hw'

theorem skillsRawScore_mono {tl₁ tl₂ : Text} (pos : String)
    (hsub : ∀ s ∈ skillsFound tl₂, s ∈ skillsFound tl₁) :
    skillsRawScore tl₂ pos ≤ skillsRawScore tl₁ pos := by
  rw [skillsRawScore, skillsRawScore, sum_map_filter_eq, sum_map_filter_eq]
  apply List.sum_le_sum
  intro sw hmem
  by_cases h2 : wbSearch sw.1 tl₂
  · rw [if_pos h2, if_pos (wbSearch_mono_of_subset hsub hmem h2)]
  · rw [if_neg h2]
    exact Nat.zero_le _

/-- C5: with every other scored feature held fixed (including the emptiness
check and the position-specific skill counts, both of which the scorer
reads), a text whose recognized skill set contains that of another text
receives at least as high a grade. -/
theorem c5_grade_monotone_in_skills (t₁ t₂ : Text) (pos : String)
    (hemp : t₁ = [] ↔ t₂ = [])
    (hsk : ∀ s ∈ skillsFound (lowerText t₂), s ∈ skillsFound (lowerText t₁))
    (hexp : expSectionScore t₁ = expSectionScore t₂)
    (hsen : seniorBonus (lowerText t₁) = seniorBonus (lowerText t₂))
    (hedu : educationScoreRaw (lowerText t₁) = educationScoreRaw (lowerText t₂))
    (hcomp : companyScoreRaw (lowerText t₁) = companyScoreRaw (lowerText t₂))
    (hcert : certScore (lowerText t₁) = certScore (lowerText t₂))
    (hach : achievementCount (lowerText t₁) = achievementCount (lowerText t₂))
    (hpos : positionBonus (lowerText t₁) pos = positionBonus (lowerText t₂) pos) :
    (grade_resume t₂ pos).1 ≤ (grade_resume t₁ pos).1 := by
  by_cases he : t₁ = []
  · have he2 : t₂ = [] := hemp.mp he
    rw [he, he2]
  · have he2 : t₂ ≠ [] := fun h => he (hemp.mpr h)
    rw [grade_resume_nonempty t₁ pos he, grade_resume_nonempty t₂ pos he2]
    have hs : skillsRawScore (lowerText t₂) pos ≤ skillsRawScore (lowerText t₁) pos :=
      skillsRawScore_mono pos hsk
    have hint : intScore t₁ pos = intScore t₂ pos := by
      rw [intScore, intScore, hexp, hsen, hedu, hcomp, hcert, hach, hpos]
    have hraw : rawScore t₂ pos ≤ rawScore t₁ pos := by
      rw [rawScore_eq, rawScore_eq, hint]
      have h2 : (skillsRawScore (lowerText t₂) pos : ℚ) ≤
          (skillsRawScore (lowerText t₁) pos : ℚ) := by exact_mod_cast hs
      linarith
    have hv : min 95 (max 30 (rawScore t₂ pos)) ≤ min 95 (max 30 (rawScore t₁ pos)) :=
      min_le_min (le_refl _) (max_le_max (le_refl _) hraw)
    have hnh₁ : Int.fract (min 95 (max 30 (rawScore t₁ pos))) ≠ 1 / 2 := by
      rw [rawScore_eq]
      exact fract_ne_half_clamped _ _
    have hnh₂ : Int.fract (min 95 (max 30 (rawScore t₂ pos))) ≠ 1 / 2 := by
      rw [rawScore_eq]
      exact fract_ne_half_clamped _ _
    rw [pyRound_eq_round _ hnh₁, pyRound_eq_round _ hnh₂]
    exact round_le_round_q hv

theorem c5_grade_monotone_witness :
    (grade_resume ("experience python".toList) "software_engineer").1 ≤
      (grade_resume ("experience python sql".toList) "software_engineer").1 :=
  c5_grade_monotone_in_skills ("experience python sql".toList) ("experience python".toList)
    "software_engineer" (by decide) (by decide) (by with_unfolding_all decide) (by decide)
    (by decide) (by decide) (by decide) (by decide) (by decide)

end RealisticResumeScreener

namespace DecisionMakerAgent

theorem filter_orderedInsert_pos (x : GradedResume) (l : List GradedResume) (g : ℤ)
    (hx : gradeKey x = g) :
    (List.orderedInsert (fun a b => gradeKey b ≤ gradeKey a) x l).filter
        (fun r => gradeKey r == g) =
      x :: l.filter (fun r => gradeKey r == g) := by
  induction l with
  | nil => simp [List.orderedInsert, hx]
  | cons y ys ih =>
    rw [List.orderedInsert]
    by_cases h : gradeKey y ≤ gradeKey x
    · rw [if_pos h]
      simp [List.filter_cons, hx]
    · rw [if_neg h]
      have hy : (gradeKey y == g) = false := by
        rw [beq_eq_false_iff_ne]
        intro hgy
        exact h (le_of_eq (hgy.trans hx.symm))
      simp only [List.filter_cons, hy, Bool.false_eq_true, if_false, ih]

theorem filter_orderedInsert_neg (x : GradedResume) (l : List GradedResume) (g : ℤ)
    (hx : gradeKey x ≠ g) :
    (List.orderedInsert (fun a b => gradeKey b ≤ gradeKey a) x l).filter
        (fun r => gradeKey r == g) =
      l.filter (fun r => gradeKey r == g) := by
  have hx' : (gradeKey x == g) = false := beq_eq_false_iff_ne.mpr hx
  induction l with
  | nil => simp [List.orderedInsert, hx']
  | cons y ys ih =>
    rw [List.orderedInsert]
    by_cases h : gradeKey y ≤ gradeKey x
    · rw [if_pos h]
      simp [List.filter_cons, hx']
    · rw [if_neg h]
      simp only [List.filter_cons, ih]

/-- Stability of the descending sort: the records of any fixed grade appear
in the sorted output exactly in their original encounter order. -/
theorem filter_sortDescByGrade (l : List GradedResume) (g : ℤ) :
    (sortDescByGrade l).filter (fun r => gradeKey r == g) =
      l.filter (fun r => gradeKey r == g) := by
  induction l with
  | nil => rfl
  | cons x xs ih =>
    rw [sortDescByGrade, List.insertionSort]
    by_cases hx : gradeKey x = g
    · rw [filter_orderedInsert_pos x _ g hx]
      rw [show List.insertionSort (fun a b => gradeKey b ≤ gradeKey a) xs =
        sortDescByGrade xs from rfl, ih]
      simp [List.filter_cons, hx]
    · rw [filter_orderedInsert_neg x _ g hx]
      rw [show List.insertionSort (fun a b => gradeKey b ≤ gradeKey a) xs =
        sortDescByGrade xs from rfl, ih]
      simp [List.filter_cons, beq_eq_false_iff_ne.mpr hx]

/-- C6: on a collection whose records all carry a grade, the selector
returns exactly the first `n` entries of the stable descending sort of the
input; the result never has more than `n` entries, is sorted descending by
grade, and equal-grade records keep their original encounter order.  (The
embedding is purely functional, matching the source, which builds new lists
and leaves its input unmodified.) -/
theorem c6_select_top_spec (l : List GradedResume) (n : ℕ)
    (h : ∀ r ∈ l, r.grade.isSome = true) :
    select_top_candidates l n = (sortDescByGrade l).take n ∧
    (select_top_candidates l n).length ≤ n ∧
    List.Sorted (fun a b => gradeKey b ≤ gradeKey a) (select_top_candidates l n) ∧
    ∀ g : ℤ, (sortDescByGrade l).filter (fun r => gradeKey r == g) =
      l.filter (fun r => gradeKey r == g) := by
  have hfilter : l.filter (fun r => r.grade.isSome) = l := List.filter_eq_self.mpr h
  refine ⟨?_, ?_, ?_, fun g => filter_sortDescByGrade l g⟩
  · rw [select_top_candidates, hfilter]
  · rw [select_top_candidates]
    exact List.length_take_le n _
  · rw [select_top_candidates, hfilter]
    exact List.Pairwise.sublist (List.take_sublist n _)
      (List.sorted_insertionSort (fun a b => gradeKey b ≤ gradeKey a) l)

theorem c6_select_top_witness :
    select_top_candidates
        [⟨0, some 50⟩, ⟨1, some 80⟩, ⟨2, some 50⟩] 2 =
      (sortDescByGrade [⟨0, some 50⟩, ⟨1, some 80⟩, ⟨2, some 50⟩]).take 2 ∧
    (select_top_candidates [⟨0, some 50⟩, ⟨1, some 80⟩, ⟨2, some 50⟩] 2).length ≤ 2 ∧
    List.Sorted (fun a b => gradeKey b ≤ gradeKey a)
      (select_top_candidates [⟨0, some 50⟩, ⟨1, some 80⟩, ⟨2, some 50⟩] 2) := by
  have h := c6_select_top_spec [⟨0, some 50⟩, ⟨1, some 80⟩, ⟨2, some 50⟩] 2 (by decide)
  exact ⟨h.1, h.2.1, h.2.2.1⟩

end DecisionMakerAgent

namespace RealisticResumeScreener

open Screening

theorem foldl_min_le (xs : List ℕ) (a : ℕ) : xs.foldl min a ≤ a := by
  induction xs generalizing a with
  | nil => exact le_refl a
  | cons x xs ih =>
    exact le_trans (ih (min a x)) (min_le_left a x)

theorem le_foldl_max (xs : List ℕ) (a : ℕ) : a ≤ xs.foldl max a := by
  induction xs generalizing a with
  | nil => exact le_refl a
  | cons x xs ih =>
    exact le_trans (le_max_left a x) (ih (max a x))

theorem listMin_le_listMax (l : List ℕ) : listMin l ≤ listMax l := by
  cases l with
  | nil => exact le_refl 0
  | cons x xs =>
    exact le_trans (foldl_min_le xs x) (le_foldl_max xs x)

/-- C7: the years-of-experience estimate equals the first explicit
"<N> years experience" capture when one exists; otherwise it is the
`(max - min) / 10` spread of the 4-digit years in `[1900, 2024]` (when at
least two 4-digit years occur and the filtered list is non-empty, else 0),
clamped to `[0, 20]`.  It is always non-negative, and bounded by the
explicit `N` (indeed equal to it) respectively by 20. -/
theorem c7_years_estimate_spec (t : Text) :
    0 ≤ years_experience t ∧
    (∀ n, searchYearsStrict (lowerText t) = some n → years_experience t = (n : ℚ)) ∧
    (searchYearsStrict (lowerText t) = none →
      years_experience t ≤ 20 ∧
      years_experience t =
        (if 2 ≤ (findYears4 t).length then
          (if ((findYears4 t).filter (fun y => decide (1900 ≤ y) && decide (y ≤ 2024))).isEmpty
            then 0
            else
              min 20
                (((listMax ((findYears4 t).filter
                      (fun y => decide (1900 ≤ y) && decide (y ≤ 2024))) : ℚ)
                  - (listMin ((findYears4 t).filter
                      (fun y => decide (1900 ≤ y) && decide (y ≤ 2024))) : ℚ)) / 10))
         else 0)) := by
  rcases hs : searchYearsStrict (lowerText t) with _ | n
  · set yn := (findYears4 t).filter (fun y => decide (1900 ≤ y) && decide (y ≤ 2024)) with hyn
    have hmm : (0 : ℚ) ≤ ((listMax yn : ℚ) - (listMin yn : ℚ)) / 10 := by
      have h1 : listMin yn ≤ listMax yn := listMin_le_listMax yn
      have h2 : ((listMin yn : ℕ) : ℚ) ≤ ((listMax yn : ℕ) : ℚ) := by exact_mod_cast h1
      linarith
    have hve : years_experience t =
        (if 2 ≤ (findYears4 t).length then
          (if yn.isEmpty then 0
           else
             (if 20 < ((listMax yn : ℚ) - (listMin yn : ℚ)) / 10 then (20 : ℚ)
              else ((listMax yn : ℚ) - (listMin yn : ℚ)) / 10))
         else 0) := by
      rw [years_experience, hs]
    have hminform :
        (if 20 < ((listMax yn : ℚ) - (listMin yn : ℚ)) / 10 then (20 : ℚ)
         else ((listMax yn : ℚ) - (listMin yn : ℚ)) / 10) =
          min 20 (((listMax yn : ℚ) - (listMin yn : ℚ)) / 10) := by
      by_cases h20 : 20 < ((listMax yn : ℚ) - (listMin yn : ℚ)) / 10
      · rw [if_pos h20, min_eq_left (le_of_lt h20)]
      · rw [if_neg h20, min_eq_right (not_lt.mp h20)]
    refine ⟨?_, ?_, fun _ => ⟨?_, ?_⟩⟩
    · rw [hve]
      split
      · split
        · exact le_refl 0
        · rw [hminform]
          exact le_min (by norm_num) hmm
      · exact le_refl 0
    · intro n hn
      exact absurd hn (by simp)
    · rw [hve]
      split
      · split
        · norm_num
        · rw [hminform]
          exact min_le_left _ _
      · norm_num
    · rw [hve, hminform]
  · have hve : years_experience t = (n : ℚ) := by
      rw [years_experience, hs]
    refine ⟨by rw [hve]; positivity, fun n' hn' => ?_, fun h0 => ?_⟩
    · rw [hve, Option.some.inj hn']
    · exact absurd h0 (by simp)

theorem c7_years_estimate_witness :
    0 ≤ years_experience ("Google (2016-2020), MIT (2010)".toList) ∧
    years_experience ("Google (2016-2020), MIT (2010)".toList) ≤ 20 := by
  have h := c7_years_estimate_spec ("Google (2016-2020), MIT (2010)".toList)
  exact ⟨h.1, (h.2.2 (by with_unfolding_all decide)).1⟩

end RealisticResumeScreener

namespace Screening

theorem toNat_ofNat_valid {n : ℕ} (h : n.isValidChar) : (Char.ofNat n).toNat = n := by
  unfold Char.ofNat
  rw [dif_pos h]
  rfl

theorem toLower_shift (c : Char) :
    Char.toLower c = c ∨
      (65 ≤ c.toNat ∧ c.toNat ≤ 90 ∧ (Char.toLower c).toNat = c.toNat + 32) := by
  have hlow : Char.toLower c =
      if c.toNat ≥ 65 ∧ c.toNat ≤ 90 then Char.ofNat (c.toNat + 32) else c := rfl
  rw [hlow]
  split
  next h =>
    right
    exact ⟨h.1, h.2, toNat_ofNat_valid (Or.inl (by omega))⟩
  next h =>
    left
    rfl

theorem toLower_eq_iff_lt65 {c d : Char} (hd : d.toNat < 65) :
    Char.toLower c = d ↔ c = d := by
  rcases toLower_shift c with h | ⟨h1, h2, h3⟩
  · rw [h]
  · constructor
    · intro he
      rw [he] at h3
      exfalso
      omega
    · intro he
      subst he
      exfalso
      omega

theorem beq_toLower_lt65 (c d : Char) (hd : d.toNat < 65) :
    (Char.toLower c == d) = (c == d) := by
  apply bool_eq_of_iff
  simp only [beq_iff_eq]
  exact toLower_eq_iff_lt65 hd

theorem isWsChar_toLower (c : Char) : isWsChar (Char.toLower c) = isWsChar c := by
  rw [isWsChar, isWsChar, beq_toLower_lt65 c ' ' (by decide),
    beq_toLower_lt65 c '\t' (by decide), beq_toLower_lt65 c '\n' (by decide),
    beq_toLower_lt65 c '\r' (by decide), beq_toLower_lt65 c '\x0b' (by decide),
    beq_toLower_lt65 c '\x0c' (by decide)]

theorem isDigitChar_toLower (c : Char) : isDigitChar (Char.toLower c) = isDigitChar c := by
  rw [isDigitChar, isDigitChar, beq_toLower_lt65 c '0' (by decide),
    beq_toLower_lt65 c '1' (by decide), beq_toLower_lt65 c '2' (by decide),
    beq_toLower_lt65 c '3' (by decide), beq_toLower_lt65 c '4' (by decide),
    beq_toLower_lt65 c '5' (by decide), beq_toLower_lt65 c '6' (by decide),
    beq_toLower_lt65 c '7' (by decide), beq_toLower_lt65 c '8' (by decide),
    beq_toLower_lt65 c '9' (by decide)]

theorem skipWs_lower (t : Text) : skipWs (lowerText t) = lowerText (skipWs t) := by
  induction t with
  | nil => rfl
  | cons c rest ih =>
    simp only [lowerText, List.map, skipWs, isWsChar_toLower]
    by_cases h : isWsChar c
    · rw [if_pos h, if_pos h]
      exact ih
    · rw [if_neg h, if_neg h]
      rfl

end Screening

namespace RealisticResumeScreener

open Screening

theorem matchSecondYear_lower (t : Text) :
    matchSecondYear (lowerText t) = matchSecondYear t := by
  rcases t with _ | ⟨a, _ | ⟨b, _ | ⟨c, _ | ⟨d, rest⟩⟩⟩⟩
  · rfl
  · rfl
  · rfl
  · rfl
  · simp only [lowerText, List.map, matchSecondYear]
    rw [beq_toLower_lt65 a '1' (by decide), beq_toLower_lt65 b '9' (by decide),
      beq_toLower_lt65 a '2' (by decide), beq_toLower_lt65 b '0' (by decide),
      isDigitChar_toLower, isDigitChar_toLower]

theorem matchDateAt_lower (t : Text) :
    matchDateAt (lowerText t) = matchDateAt t := by
  rcases t with _ | ⟨a, _ | ⟨b, _ | ⟨c, _ | ⟨d, _ | ⟨e, rest⟩⟩⟩⟩⟩
  · rfl
  · rfl
  · rfl
  · rfl
  · rfl
  · simp only [lowerText, List.map, matchDateAt]
    rw [beq_toLower_lt65 a '1' (by decide), beq_toLower_lt65 b '9' (by decide),
      beq_toLower_lt65 a '2' (by decide), beq_toLower_lt65 b '0' (by decide),
      isDigitChar_toLower, isDigitChar_toLower, beq_toLower_lt65 e '-' (by decide),
      isWsChar_toLower,
      show List.map Char.toLower rest = lowerText rest from rfl,
      skipWs_lower, matchSecondYear_lower]

theorem datePatternFound_lower (t : Text) :
    datePatternFound (lowerText t) = datePatternFound t := by
  induction t with
  | nil => rfl
  | cons c rest ih =>
    simp only [lowerText, List.map, datePatternFound]
    rw [show Char.toLower c :: List.map Char.toLower rest = lowerText (c :: rest) from rfl,
      matchDateAt_lower,
      show List.map Char.toLower rest = lowerText rest from rfl, ih]

/-- C8: the grade and the skill list are invariant under re-casing of the
input: any two texts with the same lowercasing (in particular a text and its
uppercased or lowercased variants) receive identical results. -/
theorem c8_case_invariance (t u : Text) (pos : String) (h : lowerText t = lowerText u) :
    grade_resume t pos = grade_resume u pos := by
  have hemp : t.isEmpty = u.isEmpty := by
    have hl : t.length = u.length := by
      have h2 := congrArg List.length h
      simpa [lowerText] using h2
    cases t <;> cases u <;> simp_all
  have hdp : datePatternFound t = datePatternFound u := by
    rw [← datePatternFound_lower t, ← datePatternFound_lower u, h]
  have hexp : expSectionScore t = expSectionScore u := by
    rw [expSectionScore, expSectionScore, h, hdp]
  have hraw : rawScore t pos = rawScore u pos := by
    rw [rawScore, rawScore, h, hexp]
  rw [grade_resume, grade_resume, hemp, hraw, h]

theorem c8_case_invariance_witness :
    grade_resume ("Senior PYTHON Developer, 5 Years Experience".toList) "software_engineer" =
      grade_resume ("senior python developer, 5 years experience".toList) "software_engineer" :=
  c8_case_invariance _ _ _ (by decide)

end RealisticResumeScreener

namespace HRGraderAgent

/-- C9: when the model response cannot be parsed as JSON (`decoded = none`,
the `except` path of `_parse_response`), `grade_and_summarize` — a total
function, so no exception propagates — returns grade 0, the summary
"Error parsing agent response", and all four component sub-scores 0. -/
theorem c9_parse_failure_fallback (resume_text : Screening.Text) (response : String) :
    (grade_and_summarize resume_text response none).grade = 0 ∧
    (grade_and_summarize resume_text response none).summary = "Error parsing agent response" ∧
    (grade_and_summarize resume_text response none).relevance = 0 ∧
    (grade_and_summarize resume_text response none).skills = 0 ∧
    (grade_and_summarize resume_text response none).experience = 0 ∧
    (grade_and_summarize resume_text response none).formatting = 0 :=
  ⟨rfl, rfl, rfl, rfl, rfl, rfl⟩

end HRGraderAgent

namespace ResumeScreener

open Screening

/-- C10: the simple 50-base-point variant returns 0 exactly on empty text
and otherwise a value in `[50, 100]`; no input yields a grade strictly
between 1 and 49. -/
theorem c10_simple_grade_spec (t : Text) :
    (t = [] → grade_resume t = 0) ∧
    (t ≠ [] → 50 ≤ grade_resume t ∧ grade_resume t ≤ 100) ∧
    ¬(1 ≤ grade_resume t ∧ grade_resume t ≤ 49) := by
  by_cases he : t = []
  · subst he
    exact ⟨fun _ => rfl, fun h => absurd rfl h, by decide⟩
  · have hne : t.isEmpty = false := by
      cases t
      · exact absurd rfl he
      · rfl
    have hg : grade_resume t =
        min 100
          (50 + (if hasSub "experience" (lowerText t) then 20 else 0)
              + (if hasSub "year" (lowerText t) then 10 else 0)
              + (if hasSub "education" (lowerText t) then 10 else 0)
              + (if hasSub "degree" (lowerText t) || hasSub "bachelor" (lowerText t) ||
                    hasSub "master" (lowerText t) then 10 else 0)
              + 5 * ((["python", "java", "javascript", "sql", "aws", "docker"]).countP
                      (fun sk => hasSub sk (lowerText t)))) := by
      rw [grade_resume, hne]
      rfl
    have h50 : 50 ≤ grade_resume t := by
      rw [hg]
      refine le_min (by norm_num) ?_
      have h1 : (0:ℕ) ≤ (if hasSub "experience" (lowerText t) then 20 else 0) := Nat.zero_le _
      omega
    have h100 : grade_resume t ≤ 100 := by
      rw [hg]
      exact min_le_left _ _
    exact ⟨fun h => absurd h he, fun _ => ⟨h50, h100⟩, fun hc => by omega⟩

theorem c10_simple_grade_witness :
    (50 ≤ grade_resume ("experience with python".toList) ∧
      grade_resume ("experience with python".toList) ≤ 100) ∧
    ¬(1 ≤ grade_resume ("experience with python".toList) ∧
      grade_resume ("experience with python".toList) ≤ 49) := by
  have h := c10_simple_grade_spec ("experience with python".toList)
  exact ⟨h.2.1 (by decide), h.2.2⟩

end ResumeScreener
